import Mathlib

/-!
Verification development for the Salto persistent workspace state subsystem
(packages/core/src/local-workspace/state/state.ts) and the location cache pool.

The element model, serialization library, gzip compression and MD5 digests are
external collaborators of the code under study; they are modelled here by
executable functions that preserve exactly the properties the code relies on
(injective serialization, compressed bytes distinct from the source text,
collision-free fingerprints).  Everything else is translated directly from the
TypeScript source.
-/

namespace Salto

/-! ## Element data model (collaborator, adapter-api) -/

/-- Element identifier: globally unique, hierarchical; the component before the
first separator is the account (adapter) name. -/
structure ElemID where
  adapter : String
  typeName : String
deriving DecidableEq, Repr

def ElemID.getFullName (i : ElemID) : String := i.adapter ++ "." ++ i.typeName

/-- Modelled from the element collaborator: a typed configuration object with a
unique identifier and an opaque serializable payload. -/
structure Element where
  elemID : ElemID
  value : Nat
deriving DecidableEq, Repr

/-- One entry of the path index: an element full name together with the ordered
list of path segment lists it originated from (state.ts PathEntry). -/
abbrev PathEntry := String × List (List String)

/-- Account component of a full element name (the part before the first dot). -/
def accountOfFullName (s : String) : String :=
  String.mk (s.toList.takeWhile (fun c => c ≠ '.'))

/-! ## Stream codec values

A durable state blob is a gzip-compressed line-delimited JSON stream.  After
gunzip and line-wise JSON parsing, each line is a pair of its index and its
parsed value.  The value shapes below are the ones that occur in state files
produced by this subsystem (current or legacy); the dynamic JSON values of the
TypeScript code are restricted to these shapes. -/

inductive StateValue where
  | elements (els : List Element)
  | strVal (s : String)
  | objVal (keys : List String)
  | pathEntries (ps : List PathEntry)
deriving DecidableEq, Repr

/-- Compressed content blob: the gzip compression of a line-delimited stream.
Compression is injective, so the blob is modelled by the line structure it
compresses; `gzBytesString` below gives the string form of the compressed
bytes. -/
structure GzContent where
  lines : List (Nat × StateValue)
deriving DecidableEq, Repr

/-! ### Textual rendering (model of the serialization collaborator) -/

def renderPaths (pss : List (List String)) : String :=
  "[" ++ String.intercalate "," (pss.map (fun ps => "[" ++ String.intercalate "," ps ++ "]")) ++ "]"

def renderElement (e : Element) : String :=
  "elem(" ++ e.elemID.getFullName ++ ":" ++ toString e.value ++ ")"

def renderStateValue : StateValue → String
  | .elements els => "[" ++ String.intercalate "," (els.map renderElement) ++ "]"
  | .strVal s => "\"" ++ s ++ "\""
  | .objVal ks => "obj(" ++ String.intercalate "," ks ++ ")"
  | .pathEntries ps =>
      "[" ++ String.intercalate ","
        (ps.map (fun pe => "[\"" ++ pe.1 ++ "\"," ++ renderPaths pe.2 ++ "]")) ++ "]"

def EOL : String := "\n"

/-- Uncompressed serialized text of a line stream: each line rendered and
terminated by EOL, exactly as the per-account state stream is dumped. -/
def stateText (lines : List (Nat × StateValue)) : String :=
  String.join (lines.map (fun l => renderStateValue l.2 ++ EOL))

/-- Modelled from the zlib collaborator: gzip compression of the rendered text.
Real gzip output always begins with the magic bytes 1f 8b, hence is never equal
to the text it compresses; the model keeps the compressed blob injective in the
text by retaining the line structure. -/
def gzipCompress (lines : List (Nat × StateValue)) : GzContent := ⟨lines⟩

def gzMagic : String := "\x1f\x8b"

/-- String form of the compressed bytes of a blob (what Buffer.toString returns
on the gzip output). -/
def gzBytesString (c : GzContent) : String := gzMagic ++ stateText c.lines

/-- Modelled from the lowerdash hash collaborator: MD5 hex digest of a string,
modelled as an injective fingerprint. -/
def toMD5 (s : String) : String := "md5(" ++ s ++ ")"

/-- Modelled from the spec: getHashFromHashes combines the per-account hashes
into one workspace-level digest (content_providers module not excerpted). -/
def getHashFromHashes (hs : List String) : String := toMD5 (String.join hs)

/-! ## Content provider

Modelled from the spec, section 4.1 (the content_providers module is not
excerpted): a backend owns durable blobs keyed by a file name made of a shared
file path start and a per-account suffix, and supports enumerate, read, write,
rename, clear and hashing.  `failWrites` injects a backend write failure. -/

structure FileKey where
  pref : String
  account : String
deriving DecidableEq, Repr

structure ContentAndHash where
  account : String
  content : GzContent
  contentHash : String
deriving DecidableEq, Repr

structure StateContentProvider where
  files : List (FileKey × GzContent)
  failWrites : Bool
deriving DecidableEq, Repr

def lookupFile : List (FileKey × GzContent) → FileKey → GzContent
  | [], _ => ⟨[]⟩
  | kv :: rest, k => if kv.1 = k then kv.2 else lookupFile rest k

def StateContentProvider.findStateFiles (p : StateContentProvider) (pref : String) : List FileKey :=
  (p.files.filter (fun kv => kv.1.pref == pref)).map (fun kv => kv.1)

def StateContentProvider.readContents (p : StateContentProvider) (ks : List FileKey) :
    List (String × GzContent) :=
  ks.map (fun k => (k.account, lookupFile p.files k))

/-- Modelled from the spec: the combined fingerprint of a set of durable blobs,
computed from the string form of each blob exactly as the per-account content
hashes are, so that it stays consistent across backends. -/
def StateContentProvider.getHash (p : StateContentProvider) (ks : List FileKey) : String :=
  getHashFromHashes (ks.map (fun k => toMD5 (gzBytesString (lookupFile p.files k))))

def StateContentProvider.writeContents (p : StateContentProvider) (pref : String)
    (cs : List ContentAndHash) : Except String StateContentProvider :=
  if p.failWrites then .error "state content write failed"
  else
    let newFiles := p.files.filter (fun kv => kv.1.pref != pref)
      ++ cs.map (fun c => (FileKey.mk pref c.account, c.content))
    .ok { p with files := newFiles }

def StateContentProvider.clearContents (p : StateContentProvider) (pref : String) :
    StateContentProvider :=
  { p with files := p.files.filter (fun kv => kv.1.pref != pref) }

def StateContentProvider.renameContents (p : StateContentProvider) (o n : String) :
    StateContentProvider :=
  { p with files := p.files.map (fun kv => if kv.1.pref = o then (FileKey.mk n kv.1.account, kv.2) else kv) }

/-- Files of a provider whose key starts with the given file path start. -/
def filesAt (p : StateContentProvider) (pref : String) : List (FileKey × GzContent) :=
  p.files.filter (fun kv => kv.1.pref == pref)

/-! ## parseStateContent (state.ts lines 47 to 92) -/

structure ParsedState where
  elements : List Element
  accounts : List String
  pathIndices : List PathEntry
deriving DecidableEq, Repr

def emptyParsedState : ParsedState := ⟨[], [], []⟩

/-- One step of the stream parser, dispatching on the line index exactly as the
if chain of state.ts does.  Line shapes other than the dispatched ones do not
occur in state files written by this subsystem. -/
def parseLine (res : ParsedState) (line : Nat × StateValue) : ParsedState :=
  if line.1 = 0 then
    -- line 1: serialized elements
    match line.2 with
    | .elements els => { res with elements := res.elements ++ els }
    | _ => res
  else if line.1 = 1 then
    -- line 2: name of the configured account; old format holds a dictionary
    -- mapping adapter names to the timestamp of the most recent fetch
    match line.2 with
    | .objVal ks => { res with accounts := res.accounts ++ ks }
    | .strVal a => { res with accounts := res.accounts ++ [a] }
    | _ => res
  else if line.1 = 2 then
    -- line 3: path index
    match line.2 with
    | .pathEntries ps => { res with pathIndices := res.pathIndices ++ ps }
    | _ => res
  else if line.1 = 3 then
    -- old format line 4: Salto version, logged and ignored
    res
  else
    -- unexpected entry: logged and skipped
    res

def parseNamedStream (res : ParsedState) (s : String × GzContent) : ParsedState :=
  s.2.lines.foldl parseLine res

def parseStateContent (streams : List (String × GzContent)) : ParsedState :=
  streams.foldl parseNamedStream emptyParsedState

/-! ## Quick-access cache data -/

/-- Modelled from the spec: loadPathIndex materializes serialized path entries
into the path index map, preserving the entries (workspace path_index module
not excerpted). -/
def loadPathIndex (ps : List PathEntry) : List PathEntry := ps

/-- Materialized workspace state held by the quick-access cache: elements, path
index, the account names list (stored under the account_names key) and the
recorded content hash from the salto metadata map. -/
structure StateData where
  elements : List Element
  pathIndex : List PathEntry
  accounts : List String
  hash : Option String
deriving DecidableEq, Repr

def emptyStateData : StateData := ⟨[], [], [], none⟩

/-! ## Node path helpers (collaborator, path module) -/

def splitSlashAux : List Char → List Char → List String
  | [], acc => [String.mk acc.reverse]
  | c :: rest, acc =>
      if c = '/' then String.mk acc.reverse :: splitSlashAux rest []
      else splitSlashAux rest (c :: acc)

def splitSlash (s : String) : List String := splitSlashAux s.toList []

def pathBasename (p : String) : String := (splitSlash p).getLastD ""

def pathDirname (p : String) : String :=
  let parts := splitSlash p
  if parts.length ≤ 1 then "." else String.intercalate "/" parts.dropLast

def pathJoin (a b : String) : String := if a = "." then b else a ++ "/" ++ b

/-! ## The local state orchestrator (state.ts localState closure)

The closure variables of localState become the fields of `LocalState`:
the dirty and cacheDirty flags, the memoized per-account content and hash, the
current file path start, and the active content provider.  `mem` is the lazily
built in-memory view of the quick-access cache (absent until first access) and
`remoteMapStore` is the persistent backing store of that cache, which the
in-memory view is initialized from and which inMemState.flush persists to. -/

structure LocalState where
  dirty : Bool
  cacheDirty : Bool
  contentsAndHash : Option (List ContentAndHash)
  currentFilePref : String
  provider : StateContentProvider
  mem : Option StateData
  remoteMapStore : StateData
deriving DecidableEq, Repr

/-- Default recorded hash when the cache has none: the digest of an empty
serialized list (state.ts line 165). -/
def emptyHashDefault : String := toMD5 "[]"

/-- syncQuickAccessStateData (state.ts lines 137 to 154): reparse the durable
content and overwrite the cache elements, path index, accounts and hash. -/
def syncQuickAccessStateData (p : StateContentProvider) (filePaths : List FileKey)
    (newHash : String) : StateData :=
  let res := parseStateContent (p.readContents filePaths)
  { elements := res.elements
    pathIndex := loadPathIndex res.pathIndices
    accounts := res.accounts
    hash := some newHash }

/-- loadStateData (state.ts lines 156 to 183): build the quick-access cache
from its persistent backing, compare its recorded hash with the durable
content hash, and reparse on mismatch, marking the cache dirty. -/
def loadStateData (s : LocalState) : LocalState × StateData :=
  let quickAccessStateData := s.remoteMapStore
  let filePaths := s.provider.findStateFiles s.currentFilePref
  let stateFilesHash := s.provider.getHash filePaths
  let quickAccessHash := quickAccessStateData.hash.getD emptyHashDefault
  if quickAccessHash ≠ stateFilesHash then
    ({ s with cacheDirty := true }, syncQuickAccessStateData s.provider filePaths stateFilesHash)
  else
    (s, quickAccessStateData)

/-- Lazy load: the in-memory state built by buildInMemState runs loadStateData
on first access and keeps the result. -/
def ensureLoaded (s : LocalState) : LocalState × StateData :=
  match s.mem with
  | some d => (s, d)
  | none =>
      let r := loadStateData s
      ({ r.1 with mem := some r.2 }, r.2)

/-- setDirty (state.ts lines 132 to 135). -/
def setDirty (s : LocalState) : LocalState :=
  { s with dirty := true, contentsAndHash := none }

/-! ### Serialization of the current state (createStateTextPerAccount) -/

/-- Account names in order of first appearance: the keys of the lodash groupBy
of the elements by their adapter. -/
def dedupFirstAux (seen : List String) : List String → List String
  | [] => []
  | a :: rest =>
      if a ∈ seen then dedupFirstAux seen rest
      else a :: dedupFirstAux (a :: seen) rest

def accountsOfElements (els : List Element) : List String :=
  dedupFirstAux [] (els.map (fun e => e.elemID.adapter))

/-- Stable sort of an account group by element full name (lodash sortBy). -/
def sortByFullName (els : List Element) : List Element :=
  els.insertionSort (fun a b => a.elemID.getFullName ≤ b.elemID.getFullName)

/-- The three logical lines of one account state stream: serialized elements
(sorted), the account name as a JSON string, and the account path index
(serialized by account; an account with no entries gets an empty list). -/
def stateLinesForAccount (d : StateData) (a : String) : List (Nat × StateValue) :=
  [(0, .elements (sortByFullName (d.elements.filter (fun e => e.elemID.adapter == a)))),
   (1, .strVal a),
   (2, .pathEntries (d.pathIndex.filter (fun pe => accountOfFullName pe.1 == a)))]

/-- createStateTextPerAccount (state.ts lines 187 to 214): one uncompressed
line stream per account having elements. -/
def createStateTextPerAccount (d : StateData) : List (String × List (Nat × StateValue)) :=
  (accountsOfElements d.elements).map (fun a => (a, stateLinesForAccount d a))

/-- calculateContentAndHash (state.ts lines 216 to 228): gzip each account
stream; the content hash is the digest of the string form of the compressed
bytes (the toString call kept for backwards compatibility). -/
def calculateContentAndHash (d : StateData) : List ContentAndHash :=
  (createStateTextPerAccount d).map (fun ac =>
    let content := gzipCompress ac.2
    { account := ac.1, content := content, contentHash := toMD5 (gzBytesString content) })

/-- getContentAndHash (state.ts lines 230 to 235): memoized content and hash,
recomputed only when the memo was invalidated by a mutation. -/
def getContentAndHash (s : LocalState) : LocalState × List ContentAndHash :=
  match s.contentsAndHash with
  | some c => (s, c)
  | none =>
      let r := ensureLoaded s
      let c := calculateContentAndHash r.2
      ({ r.1 with contentsAndHash := some c }, c)

/-- inMemState.setHash: store a digest into the cache metadata. -/
def setStateHash (s : LocalState) (h : String) : LocalState :=
  let r := ensureLoaded s
  { r.1 with mem := some { r.2 with hash := some h } }

/-- inMemState.flush: persist the in-memory cache into its own backing store. -/
def inMemFlush (s : LocalState) : LocalState :=
  let r := ensureLoaded s
  { r.1 with remoteMapStore := r.2 }

/-- calculateHashImpl (state.ts lines 237 to 245). -/
def calculateHashImpl (s : LocalState) : LocalState :=
  if s.dirty = false then
    -- nothing was updated, so no flush will happen; keep the hash consistent
    -- with what the content on disk will end up being
    s
  else
    let r := getContentAndHash s
    setStateHash r.1 (getHashFromHashes (r.2.map (fun c => c.contentHash)))

/-! ### Mutations -/

def insertElement (els : List Element) (e : Element) : List Element :=
  if els.any (fun x => x.elemID == e.elemID) then
    els.map (fun x => if x.elemID = e.elemID then e else x)
  else els ++ [e]

/-- set (state.ts lines 249 to 252). -/
def setElement (s : LocalState) (e : Element) : LocalState :=
  let r := ensureLoaded s
  setDirty { r.1 with mem := some { r.2 with elements := insertElement r.2.elements e } }

/-- remove (state.ts lines 253 to 256). -/
def removeElement (s : LocalState) (id : ElemID) : LocalState :=
  let r := ensureLoaded s
  setDirty { r.1 with mem := some { r.2 with elements := r.2.elements.filter (fun x => x.elemID != id) } }

/-- rename (state.ts lines 257 to 264); the static files source rename has no
effect on the modelled state. -/
def renameState (s : LocalState) (newPref : String) : LocalState :=
  setDirty { s with
    provider := s.provider.renameContents s.currentFilePref newPref
    currentFilePref := newPref }

/-- clear (state.ts lines 288 to 291): clear the content provider and the
in-memory state, then mark dirty. -/
def clearState (s : LocalState) : LocalState :=
  let r := ensureLoaded s
  setDirty { r.1 with
    provider := r.1.provider.clearContents r.1.currentFilePref
    mem := some emptyStateData }

/-! ### flush -/

inductive FlushResult where
  | ok (s : LocalState)
  | failed (s : LocalState) (msg : String)
deriving DecidableEq, Repr

def FlushResult.stateOf : FlushResult → LocalState
  | .ok s => s
  | .failed s _ => s

def FlushResult.isOk : FlushResult → Bool
  | .ok _ => true
  | .failed _ _ => false

/-- flush (state.ts lines 265 to 286).  When not dirty, only the cache backing
store is persisted (and only when cacheDirty); when dirty, the memoized
content is written through the provider, the combined digest is stored, the
cache is persisted, and the dirty flag is cleared.  A write failure propagates
and leaves the closure state as it was at the failure point. -/
def flush (s : LocalState) : FlushResult :=
  if s.dirty = false then
    if s.cacheDirty then
      let s1 := inMemFlush s
      .ok { s1 with cacheDirty := false }
    else
      .ok s
  else
    -- mkdirp on the destination directory: no effect on the modelled state
    let r := getContentAndHash s
    let updatedHash := getHashFromHashes (r.2.map (fun c => c.contentHash))
    match r.1.provider.writeContents r.1.currentFilePref r.2 with
    | .error e => .failed r.1 e
    | .ok p =>
        let s2 := setStateHash { r.1 with provider := p } updatedHash
        let s3 := inMemFlush s2
        .ok { s3 with dirty := false }

/-! ### updateConfig (state.ts lines 304 to 319)

The new provider is built by getStateContentProvider from the new backend
configuration; the migration takes it as an argument.  Since the old provider
reference is dropped by the swap while its backend still exists, the final
content of the old backend is returned alongside the new state. -/

def tempPref (pref : String) : String :=
  pathJoin (pathDirname pref) (".tmp_" ++ pathBasename pref)

/-- The migration up to and including the write of the current content under
the temporary name via the new provider (the point at which an interruption
leaves both backends intact). -/
def updateConfigAfterWrite (s : LocalState) (np : StateContentProvider) :
    Except (LocalState × String) (LocalState × StateContentProvider) :=
  let r := getContentAndHash s
  match np.writeContents (tempPref r.1.currentFilePref) r.2 with
  | .error e => .error (r.1, e)
  | .ok np1 => .ok (r.1, np1)

inductive UpdateConfigResult where
  | ok (s : LocalState) (oldProvider : StateContentProvider)
  | failed (s : LocalState) (msg : String)
deriving DecidableEq, Repr

def UpdateConfigResult.stateOf : UpdateConfigResult → LocalState
  | .ok s _ => s
  | .failed s _ => s

def UpdateConfigResult.oldOf : UpdateConfigResult → StateContentProvider
  | .ok _ p => p
  | .failed s _ => s.provider

/-- updateConfig: write the current content under a temporary name via the new
provider, clear the old provider content, rename the temporary content to the
basename of the current file path start, and swap the active provider.  The
in-memory state updateConfig has no effect on the cached data. -/
def updateConfig (s : LocalState) (np : StateContentProvider) : UpdateConfigResult :=
  match updateConfigAfterWrite s np with
  | .error (s1, e) => .failed s1 e
  | .ok (s1, np1) =>
      let oldProvider := s1.provider.clearContents s1.currentFilePref
      let np2 := np1.renameContents (tempPref s1.currentFilePref) (pathBasename s1.currentFilePref)
      .ok { s1 with provider := np2 } oldProvider

/-- getAll: read all elements, triggering the lazy load. -/
def getAllElements (s : LocalState) : LocalState × List Element :=
  let r := ensureLoaded s
  (r.1, r.2.elements)

/-! ## Location cache pool

Modelled from the spec, section 4.4 (the remote_map/location_cache module is
not excerpted; behavior per the spec and its unit tests): a reference-counted
pool of location-scoped cache resources with created and reuse event
counters. -/

structure LocationCache where
  location : String
  resourceId : Nat
deriving DecidableEq, Repr

structure LocationCachePool where
  entries : List (String × Nat × Nat)
  nextResourceId : Nat
  createdEvents : List String
  reuseEvents : List String
deriving DecidableEq, Repr

def createLocationCachePool : LocationCachePool := ⟨[], 0, [], []⟩

def poolFind : List (String × Nat × Nat) → String → Option (Nat × Nat)
  | [], _ => none
  | e :: rest, loc => if e.1 = loc then some e.2 else poolFind rest loc

def poolIncr (entries : List (String × Nat × Nat)) (loc : String) : List (String × Nat × Nat) :=
  entries.map (fun e => if e.1 = loc then (e.1, e.2.1, e.2.2 + 1) else e)

def poolDecr (entries : List (String × Nat × Nat)) (loc : String) : List (String × Nat × Nat) :=
  entries.map (fun e => if e.1 = loc then (e.1, e.2.1, e.2.2 - 1) else e)

/-- get: share the live resource of the location when one exists (a reuse
event), else create a fresh resource with refcount one (a created event). -/
def poolGet (p : LocationCachePool) (loc : String) : LocationCachePool × LocationCache :=
  match poolFind p.entries loc with
  | some (rid, _) =>
      let p1 := { p with entries := poolIncr p.entries loc, reuseEvents := p.reuseEvents ++ [loc] }
      (p1, ⟨loc, rid⟩)
  | none =>
      let p1 := { p with
        entries := p.entries ++ [(loc, p.nextResourceId, 1)]
        nextResourceId := p.nextResourceId + 1
        createdEvents := p.createdEvents ++ [loc] }
      (p1, ⟨loc, p.nextResourceId⟩)

/-- release: decrement the refcount; on reaching zero remove the entry and
free the resource. -/
def poolRelease (p : LocationCachePool) (h : LocationCache) : LocationCachePool :=
  match poolFind p.entries h.location with
  | some (_, n) =>
      if n ≤ 1 then { p with entries := p.entries.filter (fun e => e.1 != h.location) }
      else { p with entries := poolDecr p.entries h.location }
  | none => p

/-- Iterated acquisition of one location starting from a fresh pool, returning
the pool and the handles in acquisition order. -/
def poolGetN (loc : String) : Nat → LocationCachePool × List LocationCache
  | 0 => (createLocationCachePool, [])
  | n + 1 =>
      let r := poolGetN loc n
      let g := poolGet r.1 loc
      (g.1, r.2 ++ [g.2])

/-- Iterated release of one shared handle. -/
def poolReleaseK (h : LocationCache) : Nat → LocationCachePool → LocationCachePool
  | 0, p => p
  | k + 1, p => poolReleaseK h k (poolRelease p h)

/-! ## Claim C9: location cache pool -/

def c9AfterReleases (loc : String) (n : Nat) : LocationCachePool :=
  poolReleaseK ⟨loc, 0⟩ (n - 1) (poolGetN loc n).1

def c9AfterLastRelease (loc : String) (n : Nat) : LocationCachePool :=
  poolRelease (c9AfterReleases loc n) ⟨loc, 0⟩

def c9Reacquired (loc : String) (n : Nat) : LocationCachePool :=
  (poolGet (c9AfterLastRelease loc n) loc).1

theorem poolGetN_closed (loc : String) (n : Nat) :
    poolGetN loc (n + 1) =
      ({ entries := [(loc, 0, n + 1)], nextResourceId := 1,
         createdEvents := [loc], reuseEvents := List.replicate n loc },
       List.replicate (n + 1) ⟨loc, 0⟩) := by
  induction n with
  | zero => rfl
  | succ k ih =>
      show poolGetN loc (k + 1 + 1) = _
      unfold poolGetN
      rw [ih]
      simp [poolGet, poolFind, poolIncr, List.replicate_succ']

theorem poolRelease_events (p : LocationCachePool) (h : LocationCache) :
    (poolRelease p h).createdEvents = p.createdEvents ∧
    (poolRelease p h).reuseEvents = p.reuseEvents := by
  unfold poolRelease
  cases hf : poolFind p.entries h.location with
  | none => exact ⟨rfl, rfl⟩
  | some rn =>
      by_cases hn : rn.2 ≤ 1
      · simp [hn]
      · simp [hn]

theorem poolReleaseK_closed (loc : String) (k : Nat) :
    ∀ (m : Nat) (p : LocationCachePool), k < m → p.entries = [(loc, 0, m)] →
      (poolReleaseK ⟨loc, 0⟩ k p).entries = [(loc, 0, m - k)] ∧
      (poolReleaseK ⟨loc, 0⟩ k p).createdEvents = p.createdEvents ∧
      (poolReleaseK ⟨loc, 0⟩ k p).reuseEvents = p.reuseEvents := by
  induction k with
  | zero => intro m p _ hp; exact ⟨by simpa using hp, rfl, rfl⟩
  | succ j ih =>
      intro m p hk hp
      have hm2 : 2 ≤ m := by omega
      have hrel : poolRelease p ⟨loc, 0⟩
          = { p with entries := poolDecr p.entries loc } := by
        unfold poolRelease
        have hf : poolFind p.entries loc = some (0, m) := by
          rw [hp]; simp [poolFind]
        rw [hf]
        dsimp only
        rw [if_neg (by omega)]
      have hent : (poolRelease p ⟨loc, 0⟩).entries = [(loc, 0, m - 1)] := by
        rw [hrel]
        show poolDecr p.entries loc = _
        rw [hp]
        simp [poolDecr]
      have hstep : poolReleaseK ⟨loc, 0⟩ (j + 1) p
          = poolReleaseK ⟨loc, 0⟩ j (poolRelease p ⟨loc, 0⟩) := rfl
      have hih := ih (m - 1) (poolRelease p ⟨loc, 0⟩) (by omega) hent
      have hsub : m - 1 - j = m - (j + 1) := by omega
      rw [hstep]
      refine ⟨by rw [hih.1, hsub], ?_, ?_⟩
      · rw [hih.2.1, hrel]
      · rw [hih.2.2, hrel]

/-- C9: acquiring a location N times from a fresh pool and releasing N minus
one handles produces exactly one created event and N minus one reuse events
for that location, with all N handles sharing one underlying resource;
releasing the last remaining reference removes the pool entry, and the next
get for that location produces a second created event and no further reuse
event. -/
theorem c9_location_pool (loc : String) (n : Nat) (hn : 1 ≤ n) :
    (poolGetN loc n).1.createdEvents.count loc = 1 ∧
    (poolGetN loc n).1.reuseEvents.count loc = n - 1 ∧
    (poolGetN loc n).2.length = n ∧
    (∀ h ∈ (poolGetN loc n).2, h = LocationCache.mk loc 0) ∧
    (c9AfterReleases loc n).entries = [(loc, 0, 1)] ∧
    (c9AfterReleases loc n).createdEvents.count loc = 1 ∧
    (c9AfterReleases loc n).reuseEvents.count loc = n - 1 ∧
    (c9AfterLastRelease loc n).entries = [] ∧
    (c9Reacquired loc n).createdEvents.count loc = 2 ∧
    (c9Reacquired loc n).reuseEvents.count loc = n - 1 := by
  obtain ⟨m, rfl⟩ : ∃ m, n = m + 1 := ⟨n - 1, by omega⟩
  have hclosed := poolGetN_closed loc m
  have hrelK := poolReleaseK_closed loc m (m + 1) (poolGetN loc (m + 1)).1 (by omega)
    (by rw [hclosed])
  have hsub : m + 1 - m = 1 := by omega
  have hentK : (c9AfterReleases loc (m + 1)).entries = [(loc, 0, 1)] := by
    show (poolReleaseK ⟨loc, 0⟩ (m + 1 - 1) (poolGetN loc (m + 1)).1).entries = _
    simp only [Nat.add_sub_cancel]
    rw [hrelK.1, hsub]
  have hcreK : (c9AfterReleases loc (m + 1)).createdEvents = [loc] := by
    show (poolReleaseK ⟨loc, 0⟩ (m + 1 - 1) (poolGetN loc (m + 1)).1).createdEvents = _
    simp only [Nat.add_sub_cancel]
    rw [hrelK.2.1, hclosed]
  have hreuK : (c9AfterReleases loc (m + 1)).reuseEvents = List.replicate m loc := by
    show (poolReleaseK ⟨loc, 0⟩ (m + 1 - 1) (poolGetN loc (m + 1)).1).reuseEvents = _
    simp only [Nat.add_sub_cancel]
    rw [hrelK.2.2, hclosed]
  have hlast : poolRelease (c9AfterReleases loc (m + 1)) ⟨loc, 0⟩
      = { c9AfterReleases loc (m + 1) with
          entries := (c9AfterReleases loc (m + 1)).entries.filter (fun e => e.1 != loc) } := by
    unfold poolRelease
    have hf : poolFind (c9AfterReleases loc (m + 1)).entries loc = some (0, 1) := by
      rw [hentK]; simp [poolFind]
    rw [hf]
    dsimp only
    rw [if_pos (by omega)]
  have hentLast : (c9AfterLastRelease loc (m + 1)).entries = [] := by
    show (poolRelease (c9AfterReleases loc (m + 1)) ⟨loc, 0⟩).entries = []
    rw [hlast]
    show List.filter _ (c9AfterReleases loc (m + 1)).entries = []
    rw [hentK]
    simp
  have hcreLast : (c9AfterLastRelease loc (m + 1)).createdEvents = [loc] := by
    show (poolRelease (c9AfterReleases loc (m + 1)) ⟨loc, 0⟩).createdEvents = _
    rw [(poolRelease_events _ _).1, hcreK]
  have hreuLast : (c9AfterLastRelease loc (m + 1)).reuseEvents = List.replicate m loc := by
    show (poolRelease (c9AfterReleases loc (m + 1)) ⟨loc, 0⟩).reuseEvents = _
    rw [(poolRelease_events _ _).2, hreuK]
  have hreget : c9Reacquired loc (m + 1)
      = { c9AfterLastRelease loc (m + 1) with
          entries := (c9AfterLastRelease loc (m + 1)).entries ++ [(loc,
            (c9AfterLastRelease loc (m + 1)).nextResourceId, 1)],
          nextResourceId := (c9AfterLastRelease loc (m + 1)).nextResourceId + 1,
          createdEvents := (c9AfterLastRelease loc (m + 1)).createdEvents ++ [loc] } := by
    unfold c9Reacquired poolGet
    have hf : poolFind (c9AfterLastRelease loc (m + 1)).entries loc = none := by
      rw [hentLast]; rfl
    rw [hf]
  refine ⟨?_, ?_, ?_, ?_, hentK, ?_, ?_, hentLast, ?_, ?_⟩
  · rw [hclosed]; simp
  · rw [hclosed]; simp
  · rw [hclosed]; simp
  · rw [hclosed]; intro h hh; simpa using (List.eq_of_mem_replicate hh)
  · rw [hcreK]; simp
  · rw [hreuK]; simp
  · rw [hreget]
    show ((c9AfterLastRelease loc (m + 1)).createdEvents ++ [loc]).count loc = 2
    rw [hcreLast]
    simp
  · rw [hreget]
    show (c9AfterLastRelease loc (m + 1)).reuseEvents.count loc = m + 1 - 1
    rw [hreuLast]
    simp

/-- C9 witness: the pool behavior at a concrete location acquired three
times. -/
theorem c9_location_pool_witness :
    (poolGetN "SomeLocation" 3).1.createdEvents.count "SomeLocation" = 1 ∧
    (poolGetN "SomeLocation" 3).1.reuseEvents.count "SomeLocation" = 2 ∧
    (c9AfterLastRelease "SomeLocation" 3).entries = [] ∧
    (c9Reacquired "SomeLocation" 3).createdEvents.count "SomeLocation" = 2 := by
  have h := c9_location_pool "SomeLocation" 3 (by omega)
  exact ⟨h.1, h.2.1, h.2.2.2.2.2.2.2.1, h.2.2.2.2.2.2.2.2.1⟩

/-! ## Helper lemmas on the orchestrator -/

theorem LocalState.set_cah_self (s : LocalState) (c : List ContentAndHash)
    (h : s.contentsAndHash = some c) :
    ({ s with contentsAndHash := some c } : LocalState) = s := by
  cases s; simp only at h; subst h; rfl

theorem LocalState.set_mem_self (s : LocalState) (d : StateData) (h : s.mem = some d) :
    ({ s with mem := some d } : LocalState) = s := by
  cases s; simp only at h; subst h; rfl

theorem StateData.set_hash_self (d : StateData) (h : String) (hh : d.hash = some h) :
    ({ d with hash := some h } : StateData) = d := by
  cases d; simp only at hh; subst hh; rfl

theorem loadStateData_fst (s : LocalState) :
    (loadStateData s).1 = s ∨ (loadStateData s).1 = { s with cacheDirty := true } := by
  unfold loadStateData
  dsimp only
  split
  · exact Or.inr rfl
  · exact Or.inl rfl

theorem loadStateData_fst_provider (s : LocalState) : (loadStateData s).1.provider = s.provider := by
  rcases loadStateData_fst s with h | h <;> rw [h]

theorem loadStateData_fst_dirty (s : LocalState) : (loadStateData s).1.dirty = s.dirty := by
  rcases loadStateData_fst s with h | h <;> rw [h]

theorem loadStateData_fst_pref (s : LocalState) :
    (loadStateData s).1.currentFilePref = s.currentFilePref := by
  rcases loadStateData_fst s with h | h <;> rw [h]

theorem loadStateData_fst_cah (s : LocalState) :
    (loadStateData s).1.contentsAndHash = s.contentsAndHash := by
  rcases loadStateData_fst s with h | h <;> rw [h]

theorem loadStateData_fst_remote (s : LocalState) :
    (loadStateData s).1.remoteMapStore = s.remoteMapStore := by
  rcases loadStateData_fst s with h | h <;> rw [h]

theorem loadStateData_fst_mem (s : LocalState) : (loadStateData s).1.mem = s.mem := by
  rcases loadStateData_fst s with h | h <;> rw [h]

theorem ensureLoaded_of_mem (s : LocalState) (d : StateData) (h : s.mem = some d) :
    ensureLoaded s = (s, d) := by
  unfold ensureLoaded; rw [h]

theorem ensureLoaded_fst_mem (s : LocalState) :
    (ensureLoaded s).1.mem = some (ensureLoaded s).2 := by
  cases h : s.mem
  · simp [ensureLoaded, h]
  · simp [ensureLoaded, h]

theorem ensureLoaded_fst_provider (s : LocalState) :
    (ensureLoaded s).1.provider = s.provider := by
  cases h : s.mem
  · simp [ensureLoaded, h, loadStateData_fst_provider]
  · simp [ensureLoaded, h]

theorem ensureLoaded_fst_dirty (s : LocalState) : (ensureLoaded s).1.dirty = s.dirty := by
  cases h : s.mem
  · simp [ensureLoaded, h, loadStateData_fst_dirty]
  · simp [ensureLoaded, h]

theorem ensureLoaded_fst_pref (s : LocalState) :
    (ensureLoaded s).1.currentFilePref = s.currentFilePref := by
  cases h : s.mem
  · simp [ensureLoaded, h, loadStateData_fst_pref]
  · simp [ensureLoaded, h]

theorem ensureLoaded_fst_cah (s : LocalState) :
    (ensureLoaded s).1.contentsAndHash = s.contentsAndHash := by
  cases h : s.mem
  · simp [ensureLoaded, h, loadStateData_fst_cah]
  · simp [ensureLoaded, h]

theorem ensureLoaded_fst_remote (s : LocalState) :
    (ensureLoaded s).1.remoteMapStore = s.remoteMapStore := by
  cases h : s.mem
  · simp [ensureLoaded, h, loadStateData_fst_remote]
  · simp [ensureLoaded, h]

theorem getContentAndHash_of_some (s : LocalState) (c : List ContentAndHash)
    (h : s.contentsAndHash = some c) : getContentAndHash s = (s, c) := by
  unfold getContentAndHash; rw [h]

theorem getContentAndHash_fst_cah (s : LocalState) :
    (getContentAndHash s).1.contentsAndHash = some (getContentAndHash s).2 := by
  unfold getContentAndHash
  cases h : s.contentsAndHash
  · rfl
  · exact h

theorem getContentAndHash_fst_provider (s : LocalState) :
    (getContentAndHash s).1.provider = s.provider := by
  unfold getContentAndHash
  cases h : s.contentsAndHash
  · simpa using ensureLoaded_fst_provider s
  · rfl

theorem getContentAndHash_fst_dirty (s : LocalState) :
    (getContentAndHash s).1.dirty = s.dirty := by
  unfold getContentAndHash
  cases h : s.contentsAndHash
  · simpa using ensureLoaded_fst_dirty s
  · rfl

theorem getContentAndHash_fst_pref (s : LocalState) :
    (getContentAndHash s).1.currentFilePref = s.currentFilePref := by
  unfold getContentAndHash
  cases h : s.contentsAndHash
  · simpa using ensureLoaded_fst_pref s
  · rfl

theorem getContentAndHash_fst_remote (s : LocalState) :
    (getContentAndHash s).1.remoteMapStore = s.remoteMapStore := by
  unfold getContentAndHash
  cases h : s.contentsAndHash
  · simpa using ensureLoaded_fst_remote s
  · rfl

theorem getContentAndHash_of_mem (s : LocalState) (d : StateData) (h : s.mem = some d) :
    (getContentAndHash s).1.mem = some d := by
  unfold getContentAndHash
  cases hc : s.contentsAndHash
  · simp only [ensureLoaded_of_mem s d h]; exact h
  · exact h

theorem setStateHash_mem (t : LocalState) (h : String) :
    (setStateHash t h).mem = some { (ensureLoaded t).2 with hash := some h } := rfl

theorem setStateHash_provider (t : LocalState) (h : String) :
    (setStateHash t h).provider = t.provider := by
  simp [setStateHash, ensureLoaded_fst_provider]

theorem setStateHash_dirty (t : LocalState) (h : String) :
    (setStateHash t h).dirty = t.dirty := by
  simp [setStateHash, ensureLoaded_fst_dirty]

theorem setStateHash_cah (t : LocalState) (h : String) :
    (setStateHash t h).contentsAndHash = t.contentsAndHash := by
  simp [setStateHash, ensureLoaded_fst_cah]

theorem setStateHash_pref (t : LocalState) (h : String) :
    (setStateHash t h).currentFilePref = t.currentFilePref := by
  simp [setStateHash, ensureLoaded_fst_pref]

theorem setStateHash_remote (t : LocalState) (h : String) :
    (setStateHash t h).remoteMapStore = t.remoteMapStore := by
  simp [setStateHash, ensureLoaded_fst_remote]

theorem inMemFlush_of_mem (t : LocalState) (d : StateData) (h : t.mem = some d) :
    inMemFlush t = { t with remoteMapStore := d } := by
  simp [inMemFlush, ensureLoaded_of_mem t d h]

theorem inMemFlush_provider (t : LocalState) : (inMemFlush t).provider = t.provider := by
  simp [inMemFlush, ensureLoaded_fst_provider]

theorem inMemFlush_dirty (t : LocalState) : (inMemFlush t).dirty = t.dirty := by
  simp [inMemFlush, ensureLoaded_fst_dirty]

theorem inMemFlush_mem (t : LocalState) : (inMemFlush t).mem = some (ensureLoaded t).2 := by
  simp [inMemFlush, ensureLoaded_fst_mem]

theorem inMemFlush_remote (t : LocalState) : (inMemFlush t).remoteMapStore = (ensureLoaded t).2 := by
  simp [inMemFlush]

/-! ## Claim C2 -/

def durableFilePaths (s : LocalState) : List FileKey :=
  s.provider.findStateFiles s.currentFilePref

def durableHashOf (s : LocalState) : String :=
  s.provider.getHash (durableFilePaths s)

def recordedHashOf (s : LocalState) : String :=
  s.remoteMapStore.hash.getD emptyHashDefault

def reparsedOf (s : LocalState) : ParsedState :=
  parseStateContent (s.provider.readContents (durableFilePaths s))

theorem loadStateData_branch (s : LocalState) :
    loadStateData s =
      if recordedHashOf s ≠ durableHashOf s then
        ({ s with cacheDirty := true },
          syncQuickAccessStateData s.provider (durableFilePaths s) (durableHashOf s))
      else (s, s.remoteMapStore) := by
  unfold loadStateData recordedHashOf durableHashOf durableFilePaths
  rfl

/-- C2: on a lazy load, when the recorded cache hash differs from the durable
content hash, the durable content is fully reparsed and the cache elements,
path index, accounts and recorded hash are overwritten (the hash becoming the
durable content hash), with cacheDirty set and dirty left false; when the
hashes are equal no reparse occurs and the load returns the cache data
unchanged. -/
theorem c2_staleness_detection (s : LocalState) (hd : s.dirty = false) :
    (recordedHashOf s ≠ durableHashOf s →
      (loadStateData s).1 = { s with cacheDirty := true } ∧
      (loadStateData s).1.cacheDirty = true ∧
      (loadStateData s).1.dirty = false ∧
      (loadStateData s).2.elements = (reparsedOf s).elements ∧
      (loadStateData s).2.pathIndex = loadPathIndex (reparsedOf s).pathIndices ∧
      (loadStateData s).2.accounts = (reparsedOf s).accounts ∧
      (loadStateData s).2.hash = some (durableHashOf s)) ∧
    (recordedHashOf s = durableHashOf s →
      loadStateData s = (s, s.remoteMapStore)) := by
  constructor
  · intro hne
    rw [loadStateData_branch s, if_pos hne]
    exact ⟨rfl, rfl, hd, rfl, rfl, rfl, rfl⟩
  · intro heq
    rw [loadStateData_branch s, if_neg (by simp [heq])]

def c2Elem : Element := ⟨⟨"acc", "obj"⟩, 7⟩

def c2Provider : StateContentProvider :=
  ⟨[(⟨"base/env", "acc"⟩, ⟨[(0, .elements [c2Elem]), (1, .strVal "acc"), (2, .pathEntries [])]⟩)],
    false⟩

def c2State : LocalState :=
  { dirty := false, cacheDirty := false, contentsAndHash := none,
    currentFilePref := "base/env", provider := c2Provider, mem := none,
    remoteMapStore := emptyStateData }

/-- C2 witness: on a concrete state whose recorded hash differs from the
durable hash, the load reparses the durable content. -/
theorem c2_staleness_detection_witness :
    (loadStateData c2State).1.cacheDirty = true ∧
    (loadStateData c2State).1.dirty = false ∧
    (loadStateData c2State).2.elements = (reparsedOf c2State).elements ∧
    (loadStateData c2State).2.hash = some (durableHashOf c2State) := by
  have h := (c2_staleness_detection c2State rfl).1 (by decide)
  exact ⟨h.2.1, h.2.2.1, h.2.2.2.1, h.2.2.2.2.2.2⟩

/-! ## Claim C5 -/

/-- C5: calculateHash is idempotent (a second call with no intervening
mutation stores the same digest, leaving the state exactly as after the first
call), performs no durable write (neither the provider content nor the cache
backing store change), and is a no-op when the state is not dirty. -/
theorem c5_hash_stability (s : LocalState) :
    calculateHashImpl (calculateHashImpl s) = calculateHashImpl s ∧
    (calculateHashImpl s).provider = s.provider ∧
    (calculateHashImpl s).remoteMapStore = s.remoteMapStore ∧
    (s.dirty = false → calculateHashImpl s = s) := by
  cases hd : s.dirty with
  | false =>
      simp [calculateHashImpl, hd]
  | true =>
      have hkey : ∀ t : LocalState, t.dirty = true →
          calculateHashImpl t = setStateHash (getContentAndHash t).1
            (getHashFromHashes ((getContentAndHash t).2.map (fun c => c.contentHash))) := by
        intro t ht
        simp [calculateHashImpl, ht]
      have h1 := hkey s hd
      set r := getContentAndHash s with hr
      set H := getHashFromHashes (r.2.map (fun c => c.contentHash)) with hH
      set s1 := setStateHash r.1 H with hs1
      have hs1dirty : s1.dirty = true := by
        rw [hs1, setStateHash_dirty, ← hd]
        exact getContentAndHash_fst_dirty s
      have hs1cah : s1.contentsAndHash = some r.2 := by
        rw [hs1, setStateHash_cah]
        exact getContentAndHash_fst_cah s
      have hget1 : getContentAndHash s1 = (s1, r.2) :=
        getContentAndHash_of_some s1 r.2 hs1cah
      have hmem1 : s1.mem = some { (ensureLoaded r.1).2 with hash := some H } := by
        rw [hs1]; exact setStateHash_mem r.1 H
      have h2 : calculateHashImpl s1 = setStateHash s1 H := by
        rw [hkey s1 hs1dirty, hget1]
      have h3 : setStateHash s1 H = s1 := by
        unfold setStateHash
        rw [ensureLoaded_of_mem s1 _ hmem1]
        have hh : ({ (ensureLoaded r.1).2 with hash := some H } : StateData).hash = some H := rfl
        rw [StateData.set_hash_self _ H hh]
        exact LocalState.set_mem_self s1 _ hmem1
      refine ⟨by rw [h1, h2, h3], ?_, ?_,
        by intro hfd; exact absurd hfd (by decide)⟩
      · rw [h1, hs1, setStateHash_provider]
        exact getContentAndHash_fst_provider s
      · rw [h1, hs1, setStateHash_remote]
        exact getContentAndHash_fst_remote s

def c5Data : StateData := ⟨[⟨⟨"acc", "t"⟩, 1⟩], [], ["acc"], none⟩

def c5Dirty : LocalState :=
  { dirty := true, cacheDirty := false, contentsAndHash := none,
    currentFilePref := "base/env", provider := ⟨[], false⟩, mem := some c5Data,
    remoteMapStore := emptyStateData }

def c5Clean : LocalState :=
  { dirty := false, cacheDirty := false, contentsAndHash := none,
    currentFilePref := "base/env", provider := ⟨[], false⟩, mem := some c5Data,
    remoteMapStore := c5Data }

/-- C5 witness: idempotence on a concrete dirty state and the no-op behavior
on a concrete clean state. -/
theorem c5_hash_stability_witness :
    calculateHashImpl (calculateHashImpl c5Dirty) = calculateHashImpl c5Dirty ∧
    calculateHashImpl c5Clean = c5Clean :=
  ⟨(c5_hash_stability c5Dirty).1, (c5_hash_stability c5Clean).2.2.2 rfl⟩

/-! ## Claims C6 and C7: flush -/

def flushWritten (t : LocalState) : List (FileKey × GzContent) :=
  (getContentAndHash t).2.map (fun c => (FileKey.mk t.currentFilePref c.account, c.content))

def flushHash (t : LocalState) : String :=
  getHashFromHashes ((getContentAndHash t).2.map (fun c => c.contentHash))

def flushProvider (t : LocalState) : StateContentProvider :=
  { t.provider with
    files := t.provider.files.filter (fun kv => kv.1.pref != t.currentFilePref) ++ flushWritten t }

theorem flush_dirty_eq (t : LocalState) (hd : t.dirty = true)
    (hw : t.provider.failWrites = false) :
    flush t = FlushResult.ok
      { inMemFlush (setStateHash { (getContentAndHash t).1 with provider := flushProvider t }
          (flushHash t)) with dirty := false } := by
  have hwc : (getContentAndHash t).1.provider.writeContents
      (getContentAndHash t).1.currentFilePref (getContentAndHash t).2
      = Except.ok (flushProvider t) := by
    rw [getContentAndHash_fst_provider, getContentAndHash_fst_pref]
    simp [StateContentProvider.writeContents, hw, flushProvider, flushWritten]
  unfold flush
  rw [hd, if_neg (by decide)]
  dsimp only
  rw [hwc]
  rfl

theorem flush_dirty_fail (t : LocalState) (hd : t.dirty = true)
    (hf : t.provider.failWrites = true) :
    flush t = FlushResult.failed (getContentAndHash t).1 "state content write failed" := by
  have hwc : (getContentAndHash t).1.provider.writeContents
      (getContentAndHash t).1.currentFilePref (getContentAndHash t).2
      = Except.error "state content write failed" := by
    rw [getContentAndHash_fst_provider, getContentAndHash_fst_pref]
    simp [StateContentProvider.writeContents, hf]
  unfold flush
  rw [hd, if_neg (by decide)]
  dsimp only
  rw [hwc]

theorem flush_dirty_spec (t : LocalState) (hd : t.dirty = true)
    (hw : t.provider.failWrites = false) :
    (flush t).isOk = true ∧
    (flush t).stateOf.dirty = false ∧
    (flush t).stateOf.provider = flushProvider t ∧
    (flush t).stateOf.mem = some (flush t).stateOf.remoteMapStore ∧
    (flush t).stateOf.remoteMapStore.hash = some (flushHash t) := by
  rw [flush_dirty_eq t hd hw]
  have hmem2 : (setStateHash { (getContentAndHash t).1 with provider := flushProvider t }
      (flushHash t)).mem
      = some { (ensureLoaded { (getContentAndHash t).1 with provider := flushProvider t }).2 with
          hash := some (flushHash t) } :=
    setStateHash_mem _ _
  refine ⟨rfl, rfl, ?_, ?_, ?_⟩
  · show (inMemFlush (setStateHash { (getContentAndHash t).1 with provider := flushProvider t }
        (flushHash t))).provider = flushProvider t
    rw [inMemFlush_provider, setStateHash_provider]
  · show (inMemFlush (setStateHash { (getContentAndHash t).1 with provider := flushProvider t }
          (flushHash t))).mem
      = some (inMemFlush (setStateHash { (getContentAndHash t).1 with provider := flushProvider t }
          (flushHash t))).remoteMapStore
    rw [inMemFlush_mem, inMemFlush_remote]
  · show (inMemFlush (setStateHash { (getContentAndHash t).1 with provider := flushProvider t }
        (flushHash t))).remoteMapStore.hash = some (flushHash t)
    rw [inMemFlush_remote,
      ensureLoaded_of_mem (setStateHash { (getContentAndHash t).1 with provider := flushProvider t }
        (flushHash t)) _ hmem2]

/-- C6: flush writes no durable content when the state is not dirty; when only
cacheDirty is set it persists the cache backing store and clears cacheDirty;
when neither flag is set it does nothing; when dirty it writes the memoized
per-account content through the provider, stores the combined digest as the
cache hash, persists the cache, and clears the dirty flag. -/
theorem c6_flush_behavior (s : LocalState) (hc : List ContentAndHash) :
    (s.dirty = false → s.cacheDirty = true →
      (flush s).isOk = true ∧
      (flush s).stateOf.provider = s.provider ∧
      (flush s).stateOf.cacheDirty = false ∧
      (flush s).stateOf.dirty = false ∧
      (flush s).stateOf.remoteMapStore = (ensureLoaded s).2) ∧
    (s.dirty = false → s.cacheDirty = false → flush s = FlushResult.ok s) ∧
    (s.dirty = true → s.provider.failWrites = false →
      (flush s).isOk = true ∧
      (flush s).stateOf.dirty = false ∧
      (flush s).stateOf.provider.files
        = s.provider.files.filter (fun kv => kv.1.pref != s.currentFilePref) ++ flushWritten s ∧
      (flush s).stateOf.mem = some (flush s).stateOf.remoteMapStore ∧
      (flush s).stateOf.remoteMapStore.hash = some (flushHash s) ∧
      (s.contentsAndHash = some hc → (getContentAndHash s).2 = hc)) := by
  refine ⟨?_, ?_, ?_⟩
  · intro hd hcd
    have heq : flush s = FlushResult.ok { inMemFlush s with cacheDirty := false } := by
      unfold flush
      rw [hd, if_pos rfl]
      rw [hcd, if_pos rfl]
    rw [heq]
    refine ⟨rfl, ?_, rfl, ?_, ?_⟩
    · show (inMemFlush s).provider = s.provider
      exact inMemFlush_provider s
    · show (inMemFlush s).dirty = false
      rw [inMemFlush_dirty, hd]
    · show (inMemFlush s).remoteMapStore = (ensureLoaded s).2
      exact inMemFlush_remote s
  · intro hd hcd
    unfold flush
    rw [hd, if_pos rfl, hcd, if_neg (by decide)]
  · intro hd hw
    have h := flush_dirty_spec s hd hw
    refine ⟨h.1, h.2.1, ?_, h.2.2.2.1, h.2.2.2.2, ?_⟩
    · rw [h.2.2.1]
      rfl
    · intro hmemo
      rw [getContentAndHash_of_some s hc hmemo]

def c6CacheOnly : LocalState :=
  { dirty := false, cacheDirty := true, contentsAndHash := none,
    currentFilePref := "base/env", provider := ⟨[], false⟩, mem := some c5Data,
    remoteMapStore := emptyStateData }

def c6Noop : LocalState :=
  { dirty := false, cacheDirty := false, contentsAndHash := none,
    currentFilePref := "base/env", provider := ⟨[], false⟩, mem := some c5Data,
    remoteMapStore := c5Data }

def c6DirtyS : LocalState :=
  { dirty := true, cacheDirty := false, contentsAndHash := none,
    currentFilePref := "base/env", provider := ⟨[], false⟩, mem := some c5Data,
    remoteMapStore := emptyStateData }

/-- C6 witness: the three flush behaviors on concrete states. -/
theorem c6_flush_behavior_witness :
    flush c6Noop = FlushResult.ok c6Noop ∧
    (flush c6CacheOnly).stateOf.cacheDirty = false ∧
    (flush c6CacheOnly).stateOf.provider = c6CacheOnly.provider ∧
    (flush c6DirtyS).isOk = true ∧
    (flush c6DirtyS).stateOf.dirty = false :=
  ⟨(c6_flush_behavior c6Noop []).2.1 rfl rfl,
   ((c6_flush_behavior c6CacheOnly []).1 rfl rfl).2.2.1,
   ((c6_flush_behavior c6CacheOnly []).1 rfl rfl).2.1,
   ((c6_flush_behavior c6DirtyS []).2.2 rfl rfl).1,
   ((c6_flush_behavior c6DirtyS []).2.2 rfl rfl).2.1⟩

/-- The closure state as it stands at a flush write failure, with the backend
subsequently recovered (write failure injection turned off). -/
def recoveredOf (s : LocalState) : LocalState :=
  { (getContentAndHash s).1 with provider := { files := s.provider.files, failWrites := false } }

/-- C7: a provider write failure during flush propagates to the caller with
the dirty flag still set (and neither the durable content reference nor the
cache backing store updated); a subsequent flush attempts the durable write
again, and once the write succeeds the dirty flag is cleared and the content
is written. -/
theorem c7_flush_write_failure (s : LocalState) (hd : s.dirty = true)
    (hf : s.provider.failWrites = true) :
    flush s = FlushResult.failed (getContentAndHash s).1 "state content write failed" ∧
    (getContentAndHash s).1.dirty = true ∧
    (getContentAndHash s).1.provider = s.provider ∧
    (getContentAndHash s).1.remoteMapStore = s.remoteMapStore ∧
    flush (getContentAndHash s).1
      = FlushResult.failed (getContentAndHash s).1 "state content write failed" ∧
    (flush (recoveredOf s)).isOk = true ∧
    (flush (recoveredOf s)).stateOf.dirty = false ∧
    (flush (recoveredOf s)).stateOf.provider.files
      = s.provider.files.filter (fun kv => kv.1.pref != s.currentFilePref)
          ++ flushWritten (recoveredOf s) := by
  have hd1 : (getContentAndHash s).1.dirty = true := by
    rw [getContentAndHash_fst_dirty, hd]
  have hp1 : (getContentAndHash s).1.provider = s.provider := getContentAndHash_fst_provider s
  have hfail1 : (getContentAndHash s).1.provider.failWrites = true := by rw [hp1]; exact hf
  have hretry : flush (getContentAndHash s).1
      = FlushResult.failed (getContentAndHash (getContentAndHash s).1).1
          "state content write failed" :=
    flush_dirty_fail _ hd1 hfail1
  have hfix : (getContentAndHash (getContentAndHash s).1).1 = (getContentAndHash s).1 := by
    rw [getContentAndHash_of_some _ _ (getContentAndHash_fst_cah s)]
  have hrd : (recoveredOf s).dirty = true := by
    show (getContentAndHash s).1.dirty = true
    exact hd1
  have hrw : (recoveredOf s).provider.failWrites = false := rfl
  have hrec := flush_dirty_spec (recoveredOf s) hrd hrw
  refine ⟨flush_dirty_fail s hd hf, hd1, hp1, getContentAndHash_fst_remote s, ?_, hrec.1,
    hrec.2.1, ?_⟩
  · rw [hretry, hfix]
  · rw [hrec.2.2.1]
    have hpref : (recoveredOf s).currentFilePref = s.currentFilePref :=
      getContentAndHash_fst_pref s
    simp only [flushProvider, hpref]
    rfl

def c7Fail : LocalState :=
  { dirty := true, cacheDirty := false, contentsAndHash := none,
    currentFilePref := "base/env", provider := ⟨[], true⟩, mem := some c5Data,
    remoteMapStore := emptyStateData }

/-- C7 witness: the failure propagation and retry behavior on a concrete
state. -/
theorem c7_flush_write_failure_witness :
    flush c7Fail = FlushResult.failed (getContentAndHash c7Fail).1 "state content write failed" ∧
    (getContentAndHash c7Fail).1.dirty = true ∧
    (flush (recoveredOf c7Fail)).isOk = true ∧
    (flush (recoveredOf c7Fail)).stateOf.dirty = false :=
  ⟨(c7_flush_write_failure c7Fail rfl rfl).1,
   (c7_flush_write_failure c7Fail rfl rfl).2.1,
   (c7_flush_write_failure c7Fail rfl rfl).2.2.2.2.2.1,
   (c7_flush_write_failure c7Fail rfl rfl).2.2.2.2.2.2.1⟩

/-! ## Claims C1 and C10: updateConfig -/

theorem getContentAndHash_fst_of_mem (s : LocalState) (d : StateData) (hm : s.mem = some d) :
    (getContentAndHash s).1 = { s with contentsAndHash := some (getContentAndHash s).2 } := by
  cases hc : s.contentsAndHash with
  | some c =>
      rw [getContentAndHash_of_some s c hc]
      exact (LocalState.set_cah_self s c hc).symm
  | none =>
      unfold getContentAndHash
      rw [hc]
      dsimp only
      rw [ensureLoaded_of_mem s d hm]

/-- The new provider right after the temporary write step of updateConfig. -/
def ucTempProvider (s : LocalState) (np : StateContentProvider) : StateContentProvider :=
  let newFiles := np.files.filter (fun kv => kv.1.pref != tempPref s.currentFilePref)
    ++ (getContentAndHash s).2.map
        (fun c => (FileKey.mk (tempPref s.currentFilePref) c.account, c.content))
  { np with files := newFiles }

theorem updateConfigAfterWrite_eq (s : LocalState) (np : StateContentProvider)
    (hw : np.failWrites = false) :
    updateConfigAfterWrite s np = Except.ok ((getContentAndHash s).1, ucTempProvider s np) := by
  have hwc : np.writeContents (tempPref (getContentAndHash s).1.currentFilePref)
      (getContentAndHash s).2 = Except.ok (ucTempProvider s np) := by
    rw [getContentAndHash_fst_pref]
    simp [StateContentProvider.writeContents, hw, ucTempProvider]
  unfold updateConfigAfterWrite
  dsimp only
  rw [hwc]

theorem updateConfig_eq (s : LocalState) (np : StateContentProvider)
    (hw : np.failWrites = false) :
    updateConfig s np = UpdateConfigResult.ok
      { (getContentAndHash s).1 with
          provider := (ucTempProvider s np).renameContents
            (tempPref (getContentAndHash s).1.currentFilePref)
            (pathBasename (getContentAndHash s).1.currentFilePref) }
      ((getContentAndHash s).1.provider.clearContents (getContentAndHash s).1.currentFilePref)
    := by
  unfold updateConfig
  rw [updateConfigAfterWrite_eq s np hw]

theorem filter_ne_then_eq (files : List (FileKey × GzContent)) (t : String) :
    (files.filter (fun kv => kv.1.pref != t)).filter (fun kv => kv.1.pref == t) = [] := by
  induction files with
  | nil => rfl
  | cons kv rest ih =>
      by_cases h : kv.1.pref = t
      · simp [List.filter_cons, h, ih]
      · simp [List.filter_cons, h, ih]

theorem filesAt_write (files : List (FileKey × GzContent)) (t : String)
    (cs : List ContentAndHash) :
    (files.filter (fun kv => kv.1.pref != t)
        ++ cs.map (fun c => (FileKey.mk t c.account, c.content))).filter
      (fun kv => kv.1.pref == t)
      = cs.map (fun c => (FileKey.mk t c.account, c.content)) := by
  rw [List.filter_append, filter_ne_then_eq]
  have hall : ∀ kv ∈ cs.map (fun c => ((FileKey.mk t c.account, c.content) : FileKey × GzContent)),
      (kv.1.pref == t) = true := by
    intro kv hkv
    simp only [List.mem_map] at hkv
    obtain ⟨c, _, rfl⟩ := hkv
    simp
  rw [List.filter_eq_self.mpr hall]
  rfl

theorem filesAt_clear (p : StateContentProvider) (pref : String) :
    filesAt (p.clearContents pref) pref = [] :=
  filter_ne_then_eq p.files pref

/-! ### Claim C10 -/

def c10State : LocalState :=
  { dirty := false, cacheDirty := false, contentsAndHash := none,
    currentFilePref := "base/env", provider := ⟨[], false⟩, mem := some c5Data,
    remoteMapStore := c5Data }

def c10NewProvider : StateContentProvider := ⟨[], false⟩

/-- C10 counterexample: on a concrete loaded state whose memoized content and
hash is empty, updateConfig fills the memo (it calls getContentAndHash), so
the memoized per-account content and hash is not left unchanged. -/
theorem c10_memo_counterexample :
    c10State.contentsAndHash = none ∧
    (updateConfig c10State c10NewProvider).stateOf.contentsAndHash ≠ none := by
  decide

/-- C10 amended: for an already-loaded state and a fresh new backend,
updateConfig changes only the active provider reference and the memoized
content and hash (which it fills with the current content if it was empty,
and leaves unchanged otherwise): the dirty and cacheDirty flags, the current
file path start, the in-memory cache and its backing store are unchanged (in
particular no reparse is triggered), and the new provider holds the current
content renamed to the basename of the current file path start while the
recorded path start keeps the original full path. -/
theorem c10_update_config_frame (s : LocalState) (np : StateContentProvider) (d : StateData)
    (hm : s.mem = some d) (hw : np.failWrites = false) (hnp : np.files = []) :
    (updateConfig s np).stateOf.dirty = s.dirty ∧
    (updateConfig s np).stateOf.cacheDirty = s.cacheDirty ∧
    (updateConfig s np).stateOf.currentFilePref = s.currentFilePref ∧
    (updateConfig s np).stateOf.mem = s.mem ∧
    (updateConfig s np).stateOf.remoteMapStore = s.remoteMapStore ∧
    (updateConfig s np).stateOf.contentsAndHash = some (getContentAndHash s).2 ∧
    (∀ c, s.contentsAndHash = some c →
      (updateConfig s np).stateOf.contentsAndHash = some c) ∧
    (updateConfig s np).stateOf.provider.files
      = (getContentAndHash s).2.map
          (fun c => (FileKey.mk (pathBasename s.currentFilePref) c.account, c.content)) := by
  have hfst := getContentAndHash_fst_of_mem s d hm
  rw [updateConfig_eq s np hw, hfst]
  refine ⟨rfl, rfl, rfl, rfl, rfl, rfl, ?_, ?_⟩
  · intro c hc
    show some (getContentAndHash s).2 = some c
    rw [getContentAndHash_of_some s c hc]
  · show ((ucTempProvider s np).renameContents _ _).files = _
    simp only [ucTempProvider, StateContentProvider.renameContents, hnp]
    simp [List.map_map, Function.comp]

/-- C10 witness: the amended frame property on a concrete state. -/
theorem c10_update_config_frame_witness :
    (updateConfig c10State c10NewProvider).stateOf.dirty = c10State.dirty ∧
    (updateConfig c10State c10NewProvider).stateOf.currentFilePref = c10State.currentFilePref ∧
    (updateConfig c10State c10NewProvider).stateOf.mem = c10State.mem :=
  ⟨(c10_update_config_frame c10State c10NewProvider c5Data rfl rfl rfl).1,
   (c10_update_config_frame c10State c10NewProvider c5Data rfl rfl rfl).2.2.1,
   (c10_update_config_frame c10State c10NewProvider c5Data rfl rfl rfl).2.2.2.1⟩

/-! ### Claim C1 -/

/-- C1: migration safety of updateConfig.  Before the old content is cleared,
the current per-account content has been written via the new provider under
the temporary name while the old provider is untouched (so an interruption at
that point leaves the old backend content readable); after the migration
completes, reading the state returns the same elements as before and the old
backend holds no content at the old file path start. -/
theorem c1_migration_safety (s : LocalState) (np : StateContentProvider)
    (hw : np.failWrites = false) (s1 : LocalState) (np1 : StateContentProvider)
    (h1 : updateConfigAfterWrite (getAllElements s).1 np = Except.ok (s1, np1))
    (s2 : LocalState) (oldP : StateContentProvider)
    (h2 : updateConfig (getAllElements s).1 np = UpdateConfigResult.ok s2 oldP) :
    s1.provider = s.provider ∧
    filesAt np1 (tempPref s.currentFilePref)
      = (getContentAndHash (getAllElements s).1).2.map
          (fun c => (FileKey.mk (tempPref s.currentFilePref) c.account, c.content)) ∧
    (getAllElements s2).2 = (getAllElements s).2 ∧
    filesAt oldP s.currentFilePref = [] ∧
    oldP = s.provider.clearContents s.currentFilePref := by
  have hm0 : (getAllElements s).1.mem = some (ensureLoaded s).2 := ensureLoaded_fst_mem s
  have hpref0 : (getAllElements s).1.currentFilePref = s.currentFilePref :=
    ensureLoaded_fst_pref s
  have hprov0 : (getAllElements s).1.provider = s.provider := ensureLoaded_fst_provider s
  rw [updateConfigAfterWrite_eq _ np hw] at h1
  simp only [Except.ok.injEq, Prod.mk.injEq] at h1
  obtain ⟨hs1, hnp1⟩ := h1
  rw [updateConfig_eq _ np hw] at h2
  simp only [UpdateConfigResult.ok.injEq] at h2
  obtain ⟨hs2, holdP⟩ := h2
  have hfst := getContentAndHash_fst_of_mem (getAllElements s).1 (ensureLoaded s).2 hm0
  refine ⟨?_, ?_, ?_, ?_, ?_⟩
  · rw [← hs1, getContentAndHash_fst_provider, hprov0]
  · rw [← hnp1]
    show ((ucTempProvider (getAllElements s).1 np).files).filter _ = _
    simp only [ucTempProvider, hpref0]
    exact filesAt_write np.files (tempPref s.currentFilePref) (getContentAndHash (getAllElements s).1).2
  · have hmem2 : s2.mem = some (ensureLoaded s).2 := by
      rw [← hs2, hfst]
      exact hm0
    show (ensureLoaded s2).2.elements = (ensureLoaded s).2.elements
    rw [ensureLoaded_of_mem s2 (ensureLoaded s).2 hmem2]
  · rw [← holdP, getContentAndHash_fst_provider, getContentAndHash_fst_pref, hprov0, hpref0]
    exact filesAt_clear s.provider s.currentFilePref
  · rw [← holdP, getContentAndHash_fst_provider, getContentAndHash_fst_pref, hprov0, hpref0]

def ucwFst : Except (LocalState × String) (LocalState × StateContentProvider) → LocalState
  | .ok (a, _) => a
  | .error (a, _) => a

def ucwSnd : Except (LocalState × String) (LocalState × StateContentProvider) →
    StateContentProvider
  | .ok (_, b) => b
  | .error _ => ⟨[], false⟩

def c1State : LocalState :=
  { dirty := false, cacheDirty := false, contentsAndHash := none,
    currentFilePref := "base/env",
    provider := ⟨[(⟨"base/env", "acc"⟩, ⟨[(0, .elements [c2Elem]), (1, .strVal "acc"),
      (2, .pathEntries [])]⟩)], false⟩,
    mem := some c5Data, remoteMapStore := c5Data }

def c1NewProvider : StateContentProvider := ⟨[], false⟩

/-- C1 witness: the migration safety conclusions evaluated on a concrete
state and a concrete fresh backend. -/
theorem c1_migration_safety_witness :
    (ucwFst (updateConfigAfterWrite (getAllElements c1State).1 c1NewProvider)).provider
      = c1State.provider ∧
    (getAllElements (updateConfig (getAllElements c1State).1 c1NewProvider).stateOf).2
      = (getAllElements c1State).2 ∧
    filesAt (updateConfig (getAllElements c1State).1 c1NewProvider).oldOf
      c1State.currentFilePref = [] := by
  have h := c1_migration_safety c1State c1NewProvider rfl
    (ucwFst (updateConfigAfterWrite (getAllElements c1State).1 c1NewProvider))
    (ucwSnd (updateConfigAfterWrite (getAllElements c1State).1 c1NewProvider))
    (by rfl)
    (updateConfig (getAllElements c1State).1 c1NewProvider).stateOf
    (updateConfig (getAllElements c1State).1 c1NewProvider).oldOf
    (by rfl)
  exact ⟨h.1, h.2.2.1, h.2.2.2.1⟩

/-! ## Claim C8 -/

theorem parseLine_skip_of_ge (res : ParsedState) (v : StateValue) (k : Nat) (hk : 4 ≤ k) :
    parseLine res (k, v) = res := by
  have h0 : k ≠ 0 := by omega
  have h1 : k ≠ 1 := by omega
  have h2 : k ≠ 2 := by omega
  have h3 : k ≠ 3 := by omega
  simp [parseLine, h0, h1, h2, h3]

theorem foldl_parseLine_skip (res : ParsedState) (v : StateValue) (k : Nat)
    (hk : k = 3 ∨ 4 ≤ k) (pre post : List (Nat × StateValue)) :
    (pre ++ (k, v) :: post).foldl parseLine res = (pre ++ post).foldl parseLine res := by
  have hskip : ∀ r : ParsedState, parseLine r (k, v) = r := by
    intro r
    rcases hk with h | h
    · subst h; simp [parseLine]
    · exact parseLine_skip_of_ge r v k h
  simp [List.foldl_append, List.foldl_cons, hskip]

/-- C8: a line at index 1 holding an object contributes the object keys as the
account names; the legacy version line at index 3 is ignored; a line with an
unrecognized index (4 or above) is skipped without changing the parse result;
parsing (a total function in this model) succeeds on all these variants. -/
theorem c8_legacy_line_variants (res : ParsedState) (v : StateValue) (ks : List String)
    (k : Nat) (hk : 4 ≤ k) (pre post : List (Nat × StateValue)) :
    parseLine res (1, .objVal ks) = { res with accounts := res.accounts ++ ks } ∧
    parseLine res (3, v) = res ∧
    parseLine res (k, v) = res ∧
    (pre ++ (3, v) :: post).foldl parseLine res = (pre ++ post).foldl parseLine res ∧
    (pre ++ (k, v) :: post).foldl parseLine res = (pre ++ post).foldl parseLine res := by
  refine ⟨by simp [parseLine], by simp [parseLine], parseLine_skip_of_ge res v k hk,
    foldl_parseLine_skip res v 3 (Or.inl rfl) pre post,
    foldl_parseLine_skip res v k (Or.inr hk) pre post⟩

/-- C8 witness: the variant handling evaluated at concrete lines. -/
theorem c8_legacy_line_variants_witness :
    parseLine emptyParsedState (1, .objVal ["salesforce", "netsuite"])
      = { emptyParsedState with accounts := ["salesforce", "netsuite"] } ∧
    parseLine emptyParsedState (3, .strVal "0.1.2") = emptyParsedState ∧
    ([((2 : Nat), StateValue.pathEntries [])] ++ (7, StateValue.strVal "x")
        :: [((1 : Nat), StateValue.strVal "acc")]).foldl parseLine emptyParsedState
      = ([((2 : Nat), StateValue.pathEntries [])]
          ++ [((1 : Nat), StateValue.strVal "acc")]).foldl parseLine emptyParsedState := by
  have h := c8_legacy_line_variants emptyParsedState (.strVal "0.1.2") ["salesforce", "netsuite"]
    7 (by decide) [(2, .pathEntries [])] [(1, .strVal "acc")]
  refine ⟨by simpa using h.1, h.2.1, ?_⟩
  have h2 := c8_legacy_line_variants emptyParsedState (.strVal "x") [] 7 (by decide)
    [(2, .pathEntries [])] [(1, .strVal "acc")]
  exact h2.2.2.2.2

/-! ## Claim C3 -/

def c3Elem : Element := ⟨⟨"acc", "t"⟩, 1⟩

def c3Data : StateData := ⟨[c3Elem], [("acc.t", [["p"]])], ["acc"], none⟩

/-- C3 counterexample: for a concrete one-account state, the contentHash that
calculateContentAndHash produces is the digest of the string form of the
gzip-compressed bytes, and that digest differs from the digest of the
uncompressed serialized text, so the claim that it is the digest of the
uncompressed text is false. -/
theorem c3_hash_counterexample :
    (calculateContentAndHash c3Data).map (fun c => c.contentHash)
      = [toMD5 (gzBytesString (gzipCompress (stateLinesForAccount c3Data "acc")))] ∧
    toMD5 (gzBytesString (gzipCompress (stateLinesForAccount c3Data "acc")))
      ≠ toMD5 (stateText (stateLinesForAccount c3Data "acc")) := by
  decide

/-- C3 amended: every content unit carries the digest of the string form of its
gzip-compressed bytes (the toString call kept for backwards compatibility),
not the digest of the uncompressed serialized text. -/
theorem c3_hash_of_compressed_bytes (d : StateData) (c : ContentAndHash)
    (hc : c ∈ calculateContentAndHash d) :
    c.contentHash = toMD5 (gzBytesString c.content) := by
  unfold calculateContentAndHash at hc
  simp only [List.mem_map] at hc
  obtain ⟨ac, _, rfl⟩ := hc
  rfl

def defaultCAH : ContentAndHash := ⟨"", ⟨[]⟩, ""⟩

/-- C3 witness: the amended hash relation evaluated on the concrete state. -/
theorem c3_hash_of_compressed_bytes_witness :
    ((calculateContentAndHash c3Data).headD defaultCAH).contentHash
      = toMD5 (gzBytesString ((calculateContentAndHash c3Data).headD defaultCAH).content) :=
  c3_hash_of_compressed_bytes c3Data _ (by decide)

/-! ## Claim C4: serialization round trip -/

/-- The per-account named streams produced by serializing a state, as handed
to the content provider and read back by parseStateContent. -/
def streamsOf (d : StateData) : List (String × GzContent) :=
  (calculateContentAndHash d).map (fun c => (c.account, c.content))

theorem count_filter_ite {α : Type} [DecidableEq α] (p : α → Bool) (l : List α) (y : α) :
    (l.filter p).count y = if p y then l.count y else 0 := by
  by_cases hp : p y
  · rw [if_pos hp, List.count_filter hp]
  · rw [if_neg hp]
    refine List.count_eq_zero.mpr ?_
    intro hmem
    exact hp (List.mem_filter.mp hmem).2

theorem sum_map_ite_of_nodup (as : List String) (b : String) (c : Nat) (hnd : as.Nodup)
    (hb : b ∈ as) : (as.map (fun a => if b = a then c else 0)).sum = c := by
  induction as with
  | nil => cases hb
  | cons a rest ih =>
      rw [List.map_cons, List.sum_cons]
      rcases List.mem_cons.mp hb with rfl | hbr
      · rw [if_pos rfl]
        have hnotin : b ∉ rest := (List.nodup_cons.mp hnd).1
        have hz : (rest.map (fun a => if b = a then c else 0)).sum = 0 := by
          refine List.sum_eq_zero ?_
          intro x hx
          simp only [List.mem_map] at hx
          obtain ⟨a, ha, rfl⟩ := hx
          rw [if_neg]
          intro h
          exact hnotin (h ▸ ha)
        rw [hz]
        omega
      · have hba : b ≠ a := by
          rintro rfl
          exact (List.nodup_cons.mp hnd).1 hbr
        rw [if_neg hba, ih (List.nodup_cons.mp hnd).2 hbr]
        omega

theorem flatMap_filter_key_perm {α : Type} [DecidableEq α] (key : α → String)
    (l : List α) (as : List String) (hnd : as.Nodup) (hcov : ∀ x ∈ l, key x ∈ as) :
    (as.flatMap (fun a => l.filter (fun x => key x == a))).Perm l := by
  rw [List.perm_iff_count]
  intro y
  rw [List.count_flatMap]
  have hterm : List.map (List.count y ∘ fun a => l.filter (fun x => key x == a)) as
      = as.map (fun a => if key y = a then l.count y else 0) := by
    refine List.map_congr_left ?_
    intro a _
    show (l.filter (fun x => key x == a)).count y = _
    rw [count_filter_ite]
    by_cases h : key y = a
    · simp [h]
    · simp [h]
  rw [hterm]
  by_cases hy : y ∈ l
  · rw [sum_map_ite_of_nodup as (key y) _ hnd (hcov y hy)]
  · have h0 : l.count y = 0 := List.count_eq_zero.mpr hy
    rw [h0]
    simp

theorem flatMap_perm_congr {β : Type} (as : List String) (f g : String → List β)
    (h : ∀ a, (f a).Perm (g a)) : (as.flatMap f).Perm (as.flatMap g) := by
  induction as with
  | nil => exact List.Perm.refl _
  | cons a rest ih =>
      rw [List.flatMap_cons, List.flatMap_cons]
      exact (h a).append ih

theorem mem_dedupFirstAux : ∀ (l seen : List String) (x : String),
    x ∈ dedupFirstAux seen l ↔ x ∈ l ∧ x ∉ seen := by
  intro l
  induction l with
  | nil => intro seen x; simp [dedupFirstAux]
  | cons a rest ih =>
      intro seen x
      by_cases ha : a ∈ seen
      · rw [show dedupFirstAux seen (a :: rest) = dedupFirstAux seen rest by
          simp [dedupFirstAux, ha]]
        rw [ih seen x]
        constructor
        · rintro ⟨h1, h2⟩
          exact ⟨List.mem_cons.mpr (Or.inr h1), h2⟩
        · rintro ⟨h1, h2⟩
          rcases List.mem_cons.mp h1 with rfl | h1
          · exact absurd ha h2
          · exact ⟨h1, h2⟩
      · rw [show dedupFirstAux seen (a :: rest) = a :: dedupFirstAux (a :: seen) rest by
          simp [dedupFirstAux, ha]]
        rw [List.mem_cons, ih (a :: seen) x]
        constructor
        · rintro (rfl | ⟨h1, h2⟩)
          · exact ⟨List.mem_cons_self _ _, ha⟩
          · exact ⟨List.mem_cons.mpr (Or.inr h1),
              fun hx => h2 (List.mem_cons.mpr (Or.inr hx))⟩
        · rintro ⟨h1, h2⟩
          by_cases hxa : x = a
          · exact Or.inl hxa
          · rcases List.mem_cons.mp h1 with rfl | h1
            · exact Or.inl rfl
            · refine Or.inr ⟨h1, ?_⟩
              intro hx
              rcases List.mem_cons.mp hx with h | h
              · exact hxa h
              · exact h2 h

theorem nodup_dedupFirstAux : ∀ (l seen : List String), (dedupFirstAux seen l).Nodup := by
  intro l
  induction l with
  | nil => intro seen; simp [dedupFirstAux]
  | cons a rest ih =>
      intro seen
      by_cases ha : a ∈ seen
      · simpa [dedupFirstAux, ha] using ih seen
      · rw [show dedupFirstAux seen (a :: rest) = a :: dedupFirstAux (a :: seen) rest by
          simp [dedupFirstAux, ha]]
        refine List.nodup_cons.mpr ⟨?_, ih (a :: seen)⟩
        intro hmem
        exact ((mem_dedupFirstAux rest (a :: seen) a).mp hmem).2 (List.mem_cons_self a seen)

theorem mem_accountsOfElements (els : List Element) (e : Element) (he : e ∈ els) :
    e.elemID.adapter ∈ accountsOfElements els := by
  unfold accountsOfElements
  rw [mem_dedupFirstAux]
  exact ⟨List.mem_map_of_mem _ he, by simp⟩

theorem nodup_accountsOfElements (els : List Element) : (accountsOfElements els).Nodup :=
  nodup_dedupFirstAux _ _

theorem parse_fold (d : StateData) (as : List String) (res : ParsedState) :
    (as.map (fun a => ((a, gzipCompress (stateLinesForAccount d a)) : String × GzContent))).foldl
        parseNamedStream res
      = { elements := res.elements
            ++ as.flatMap
              (fun a => sortByFullName (d.elements.filter (fun e => e.elemID.adapter == a)))
          accounts := res.accounts ++ as
          pathIndices := res.pathIndices
            ++ as.flatMap
              (fun a => d.pathIndex.filter (fun pe => accountOfFullName pe.1 == a)) } := by
  induction as generalizing res with
  | nil => cases res; simp
  | cons a rest ih =>
      rw [List.map_cons, List.foldl_cons, ih]
      have hstep : parseNamedStream res (a, gzipCompress (stateLinesForAccount d a))
          = { elements := res.elements
                ++ sortByFullName (d.elements.filter (fun e => e.elemID.adapter == a))
              accounts := res.accounts ++ [a]
              pathIndices := res.pathIndices
                ++ d.pathIndex.filter (fun pe => accountOfFullName pe.1 == a) } := rfl
      rw [hstep]
      simp [List.flatMap_cons, List.append_assoc]

theorem streamsOf_eq (d : StateData) :
    streamsOf d = (accountsOfElements d.elements).map
      (fun a => (a, gzipCompress (stateLinesForAccount d a))) := by
  simp [streamsOf, calculateContentAndHash, createStateTextPerAccount, List.map_map,
    Function.comp]

theorem parse_streams (d : StateData) :
    parseStateContent (streamsOf d)
      = { elements := (accountsOfElements d.elements).flatMap
            (fun a => sortByFullName (d.elements.filter (fun e => e.elemID.adapter == a)))
          accounts := accountsOfElements d.elements
          pathIndices := (accountsOfElements d.elements).flatMap
            (fun a => d.pathIndex.filter (fun pe => accountOfFullName pe.1 == a)) } := by
  rw [streamsOf_eq]
  unfold parseStateContent
  rw [parse_fold d _ emptyParsedState]
  rfl

def c4DropData : StateData := ⟨[⟨⟨"a", "t"⟩, 1⟩], [("b.x", [["p"]])], ["a", "b"], none⟩

/-- C4 counterexample: a path index entry whose account has no elements is
dropped by serialization, so deserializing the serialized streams does not
always reconstruct a path index with identical lookup results. -/
theorem c4_roundtrip_counterexample :
    (parseStateContent (streamsOf c4DropData)).pathIndices.find? (fun pe => pe.1 == "b.x")
      = none ∧
    c4DropData.pathIndex.find? (fun pe => pe.1 == "b.x") = some ("b.x", [["p"]]) ∧
    (parseStateContent (streamsOf c4DropData)).elements = c4DropData.elements := by
  decide

/-- C4 amended: for every element collection and every path index all of whose
entries belong to accounts having at least one element, deserializing the
per-account gzip-compressed streams produced by serialization yields the
elements up to permutation (element collection equality), exactly the account
names derived from the elements, and a path index holding the same entries up
to permutation (hence identical lookup results). -/
theorem c4_roundtrip (d : StateData)
    (hcov : ∀ pe ∈ d.pathIndex, accountOfFullName pe.1 ∈ accountsOfElements d.elements) :
    (parseStateContent (streamsOf d)).elements.Perm d.elements ∧
    (parseStateContent (streamsOf d)).accounts = accountsOfElements d.elements ∧
    (parseStateContent (streamsOf d)).pathIndices.Perm d.pathIndex ∧
    (∀ pe : PathEntry, pe ∈ (parseStateContent (streamsOf d)).pathIndices ↔ pe ∈ d.pathIndex)
    := by
  rw [parse_streams]
  have hels : ((accountsOfElements d.elements).flatMap
      (fun a => sortByFullName (d.elements.filter
        (fun e => e.elemID.adapter == a)))).Perm d.elements := by
    have h1 := flatMap_perm_congr (accountsOfElements d.elements)
      (fun a => sortByFullName (d.elements.filter (fun e => e.elemID.adapter == a)))
      (fun a => d.elements.filter (fun e => e.elemID.adapter == a))
      (fun a => List.perm_insertionSort _ _)
    refine h1.trans ?_
    exact flatMap_filter_key_perm (fun e => e.elemID.adapter) d.elements
      (accountsOfElements d.elements) (nodup_accountsOfElements d.elements)
      (fun e he => mem_accountsOfElements d.elements e he)
  have hpi := flatMap_filter_key_perm (fun pe => accountOfFullName pe.1) d.pathIndex
    (accountsOfElements d.elements) (nodup_accountsOfElements d.elements) hcov
  exact ⟨hels, rfl, hpi, fun pe => hpi.mem_iff⟩

def c4GoodData : StateData :=
  ⟨[⟨⟨"a", "t"⟩, 1⟩, ⟨⟨"b", "u"⟩, 2⟩, ⟨⟨"a", "v"⟩, 3⟩],
   [("a.t", [["p"]]), ("b.u", [["q"], ["r"]])], ["a", "b"], none⟩

/-- C4 witness: the amended round trip on a concrete two-account state. -/
theorem c4_roundtrip_witness :
    (parseStateContent (streamsOf c4GoodData)).elements.Perm c4GoodData.elements ∧
    (parseStateContent (streamsOf c4GoodData)).accounts = accountsOfElements c4GoodData.elements ∧
    (parseStateContent (streamsOf c4GoodData)).pathIndices.Perm c4GoodData.pathIndex := by
  have h := c4_roundtrip c4GoodData (by decide)
  exact ⟨h.1, h.2.1, h.2.2.1⟩

end Salto
